import Mathlib

/-!
Verification of the workflow security rule-matching engine
(`WorkflowsScanner`): a line-oriented scanner that applies a fixed
ordered list of regular-expression rules to GitHub Actions workflow
files, collects findings, and renders a severity-grouped Markdown
report.

The embedding works on `List Char` / `String` data.  Each JavaScript
regular expression of the rule set is embedded as a deterministic
matcher over `List Char`; where the regex engine's backtracking is
observable (the `\s*(?!...)` in `third-party-action-review`, the
`\s*` / `[^@]+` interaction in `pin-actions-versions`) the matcher
reproduces the backtracking semantics exactly, as noted at each
definition.
-/

/-- The JavaScript `\s` character class (WhiteSpace ∪ LineTerminator):
TAB, LF, VT, FF, CR, SP, NBSP, and the Unicode space separators,
LINE SEPARATOR, PARAGRAPH SEPARATOR, NARROW NBSP, MMSP, IDEOGRAPHIC
SPACE, and BOM. -/
def isJsSpace (c : Char) : Bool :=
  c = Char.ofNat 9 || c = Char.ofNat 10 || c = Char.ofNat 11 ||
  c = Char.ofNat 12 || c = Char.ofNat 13 || c = Char.ofNat 32 ||
  c = Char.ofNat 0xa0 || c = Char.ofNat 0x1680 ||
  (Char.ofNat 0x2000 ≤ c && c ≤ Char.ofNat 0x200a) ||
  c = Char.ofNat 0x2028 || c = Char.ofNat 0x2029 ||
  c = Char.ofNat 0x202f || c = Char.ofNat 0x205f ||
  c = Char.ofNat 0x3000 || c = Char.ofNat 0xfeff

/-- The character class `['"]` of the `no-plaintext-secrets` pattern. -/
def isQuote (c : Char) : Bool :=
  c = Char.ofNat 39 || c = Char.ofNat 34

/-- Case normalization used by `/i` regex flags: ASCII lowering (for the
ASCII-only patterns of the rule set this coincides with the regex
engine's canonicalization). -/
def lowerN (c : Char) : Char := c.toLower

/-- Identity normalization, for case-sensitive patterns. -/
def idN (c : Char) : Char := c

/-- Match a literal character sequence `ps` (already normalized) at the
head of the input, comparing through the normalization `norm`; return
the remaining input on success. -/
def matchLit (norm : Char → Char) : List Char → List Char → Option (List Char)
  | [], l => some l
  | _ :: _, [] => none
  | p :: ps, c :: cs => if norm c = p then matchLit norm ps cs else none

/-- `startsWithN norm ps l`: the input `l` starts with the literal `ps`
modulo `norm`. -/
def startsWithN (norm : Char → Char) (ps l : List Char) : Bool :=
  (matchLit norm ps l).isSome

/-- A regex without anchors matches a string iff it matches at some
start position, i.e. at the head of some suffix (`RegExp.test`
semantics). -/
def existsSuffix (p : List Char → Bool) : List Char → Bool
  | [] => p []
  | c :: cs => p (c :: cs) || existsSuffix p cs

/-- Match the literal `ps`, then continue with `k` on the remainder;
fail when the literal does not match. -/
def litThen (norm : Char → Char) (ps : List Char) (k : List Char → Bool)
    (l : List Char) : Bool :=
  match matchLit norm ps l with
  | some rest => k rest
  | none => false

/-! ## Rule 1: `no-plaintext-secrets`, `/(password|token|key|secret):\s*['"][^'"]+['"]/i` -/

/-- The alternation `(password|token|key|secret)` of rule 1. -/
def secretKeywords : List String := ["password", "token", "key", "secret"]

/-- After the closing `['"]` nothing further is required; this scanner
realizes `[^'"]+` (at least one non-quote character already consumed by
`r1Quoted`) followed by the closing quote.  Greedy `[^'"]+` is
equivalent to this first-quote scan because `[^'"]` and `['"]` are
disjoint. -/
def r1Body : List Char → Bool
  | [] => false
  | c :: cs => if isQuote c then true else r1Body cs

/-- `['"][^'"]+` part of rule 1: an opening quote was just consumed;
require one non-quote character, then scan for the closing quote. -/
def r1Quoted : List Char → Bool
  | [] => false
  | c :: cs => if isQuote c then false else r1Body cs

/-- `\s*['"]...` part of rule 1 after the colon: skip whitespace, then an
opening quote.  Greedy `\s*` is equivalent because quotes are not
whitespace. -/
def r1Sp : List Char → Bool
  | [] => false
  | c :: cs =>
    if isJsSpace c then r1Sp cs
    else if isQuote c then r1Quoted cs else false

/-- The `:` of rule 1 and the rest of the pattern.  The `/i`
canonicalization is the identity on `:` (no character other than `:`
itself canonicalizes to it), so the colon of the pattern is compared
exactly. -/
def r1Colon : List Char → Bool
  | [] => false
  | c :: rest => c = Char.ofNat 58 && r1Sp rest

/-- Rule 1 matches at the current position: one of the keywords
(case-insensitively), then `:`, then `\s*['"][^'"]+['"]`. -/
def r1At (l : List Char) : Bool :=
  secretKeywords.any fun kw => litThen lowerN kw.toList r1Colon l

/-- `pattern: /(password|token|key|secret):\s*['"][^'"]+['"]/i` of the
`no-plaintext-secrets` rule, as a whole-line test. -/
def noPlaintextSecretsPat (line : List Char) : Bool :=
  existsSuffix r1At line

/-! ## Rule 2: `pin-actions-versions`, `/uses:\s*([^@]+)@(main|master|latest|\d+)/i` -/

/-- `(main|master|latest|\d+)` of rule 2, matched case-insensitively as
an unanchored prefix of the text after `@`. -/
def r2Ref (l : List Char) : Bool :=
  startsWithN lowerN "main".toList l ||
  startsWithN lowerN "master".toList l ||
  startsWithN lowerN "latest".toList l ||
  (match l with
   | c :: _ => c.isDigit
   | [] => false)

/-- Scan for the `@` ending the `[^@]+` group; `[^@]+` cannot cross an
`@`, so the `@` of the pattern is necessarily the first `@` after the
start of the group, and no backtracking past it is possible. -/
def r2Go : List Char → Bool
  | [] => false
  | c :: cs => if c = Char.ofNat 64 then r2Ref cs else r2Go cs

/-- `\s*([^@]+)@...` of rule 2: every `\s` character is also `[^@]`, so
`\s*([^@]+)` jointly denotes one-or-more non-`@` characters; this
requires the first character to be non-`@` and then scans to the first
`@`. -/
def r2AfterUses : List Char → Bool
  | [] => false
  | c :: cs => if c = Char.ofNat 64 then false else r2Go cs

/-- Rule 2 matches at the current position. -/
def r2At (l : List Char) : Bool :=
  litThen lowerN "uses:".toList r2AfterUses l

/-- `pattern: /uses:\s*([^@]+)@(main|master|latest|\d+)/i` of the
`pin-actions-versions` rule, as a whole-line test. -/
def pinActionsVersionsPat (line : List Char) : Bool :=
  existsSuffix r2At line

/-! ## Rule 3: `third-party-action-review`, `/uses:\s*(?!actions\/|\.\/)/` (case-sensitive) -/

/-- `\s*(?!actions\/|\.\/)` of rule 3, with the regex engine's
backtracking made explicit: the match succeeds if the negative
lookahead holds at the current position (zero further `\s` consumed),
or if one whitespace character can be consumed and the rest succeeds.
The regex engine prefers the greedy repetition but `test` only asks for
existence, which is what this disjunction computes. -/
def r3After : List Char → Bool
  | [] => !(startsWithN idN "actions/".toList [] || startsWithN idN "./".toList [])
  | c :: cs =>
    !(startsWithN idN "actions/".toList (c :: cs) ||
      startsWithN idN "./".toList (c :: cs)) ||
    (isJsSpace c && r3After cs)

/-- Rule 3 matches at the current position (no `/i` flag: the literal
`uses:` is case-sensitive here). -/
def r3At (l : List Char) : Bool :=
  litThen idN "uses:".toList r3After l

/-- `pattern: /uses:\s*(?!actions\/|\.\/)/` of the
`third-party-action-review` rule, as a whole-line test. -/
def thirdPartyActionReviewPat (line : List Char) : Bool :=
  existsSuffix r3At line

/-! ## Rule 4: `script-injection`, `/\$\{\{\s*github\.event\.issue\.title\s*\}\}/` -/

/-- Trailing `\s*\}\}` of rule 4; `\x7d` is not whitespace, so greedy
skipping is equivalent. -/
def r4Close : List Char → Bool
  | [] => false
  | c :: cs =>
    if isJsSpace c then r4Close cs
    else startsWithN idN [Char.ofNat 0x7d, Char.ofNat 0x7d] (c :: cs)

/-- `\s*github\.event\.issue\.title\s*\}\}` of rule 4; `g` is not
whitespace, so greedy skipping is equivalent. -/
def r4Open : List Char → Bool
  | [] => false
  | c :: cs =>
    if isJsSpace c then r4Open cs
    else litThen idN "github.event.issue.title".toList r4Close (c :: cs)

/-- Rule 4 matches at the current position: `$` then two `\x7b`. -/
def r4At (l : List Char) : Bool :=
  litThen idN [Char.ofNat 36, Char.ofNat 0x7b, Char.ofNat 0x7b] r4Open l

/-- `pattern: /\$\{\{\s*github\.event\.issue\.title\s*\}\}/` of the
`script-injection` rule, as a whole-line test. -/
def scriptInjectionPat (line : List Char) : Bool :=
  existsSuffix r4At line

/-! ## The rule set and the scanner data model -/

/-- `type SecuritySeverity = "critical" | "high" | "medium" | "low"`. -/
inductive SecuritySeverity where
  | critical
  | high
  | medium
  | low
deriving DecidableEq, Repr

/-- One entry of `securityRules`: `pattern` is the embedded whole-line
test of the rule's regular expression. -/
structure SecurityRule where
  id : String
  description : String
  pattern : List Char → Bool
  severity : SecuritySeverity
  remediation : String

/-- The `securityRules` constant, in source order. -/
def securityRules : List SecurityRule :=
  [{ id := "no-plaintext-secrets",
     description := "Avoid hardcoded secrets in workflows",
     pattern := noPlaintextSecretsPat,
     severity := SecuritySeverity.critical,
     remediation := "Use GitHub Secrets (secrets.*) instead of hardcoded values" },
   { id := "pin-actions-versions",
     description := "Pin actions to a specific SHA",
     pattern := pinActionsVersionsPat,
     severity := SecuritySeverity.high,
     remediation := "Pin actions to a full length commit SHA instead of using branch names or version tags" },
   { id := "third-party-action-review",
     description := "Review third-party actions",
     pattern := thirdPartyActionReviewPat,
     severity := SecuritySeverity.medium,
     remediation := "Review third-party actions before using them or consider creating internal actions" },
   { id := "script-injection",
     description := "Potential script injection via user inputs",
     pattern := scriptInjectionPat,
     severity := SecuritySeverity.high,
     remediation := "Sanitize user inputs before using them in scripts" }]

/-- `interface WorkflowSecurityIssue`. -/
structure WorkflowSecurityIssue where
  file : String
  line : Nat
  rule : String
  description : String
  severity : SecuritySeverity
  remediation : String
  content : String
deriving DecidableEq, Repr

/-- `interface WorkflowScanResult`. -/
structure WorkflowScanResult where
  repository : String
  success : Bool
  message : String
  issues : List WorkflowSecurityIssue
deriving DecidableEq, Repr

/-- `content.split("\n")` (JavaScript `String.prototype.split` with a
one-character separator): `""` splits to `[""]`, a trailing separator
yields a trailing empty chunk. -/
def splitLines : List Char → List (List Char)
  | [] => [[]]
  | c :: cs =>
    if c = Char.ofNat 10 then [] :: splitLines cs
    else
      match splitLines cs with
      | l :: ls => (c :: l) :: ls
      | [] => [[c]]

/-- Leading half of JavaScript `String.prototype.trim` (the trimmed
character set equals `isJsSpace`). -/
def trimL : List Char → List Char
  | [] => []
  | c :: cs => if isJsSpace c then trimL cs else c :: cs

/-- Trailing half of JavaScript `String.prototype.trim`. -/
def trimR : List Char → List Char
  | [] => []
  | c :: cs =>
    match trimR cs with
    | [] => if isJsSpace c then [] else [c]
    | r => c :: r

/-- JavaScript `line.trim()`. -/
def jsTrim (l : List Char) : List Char := trimR (trimL l)

/-- The issue pushed by `analyzeWorkflow` when `rule.pattern.test(line)`
holds. -/
def mkIssue (filename : String) (lineNumber : Nat) (rule : SecurityRule)
    (line : List Char) : WorkflowSecurityIssue :=
  { file := filename
    line := lineNumber
    rule := rule.id
    description := rule.description
    severity := rule.severity
    remediation := rule.remediation
    content := String.mk (jsTrim line) }

/-- Inner loop of `analyzeWorkflow`: `for (const rule of securityRules)
{ if (rule.pattern.test(line)) issues.push({...}) }`, with the
accumulated `issues` array passed explicitly. -/
def ruleLoop (filename : String) (lineNumber : Nat) (line : List Char) :
    List SecurityRule → List WorkflowSecurityIssue → List WorkflowSecurityIssue
  | [], issues => issues
  | rule :: rs, issues =>
    ruleLoop filename lineNumber line rs
      (if rule.pattern line then issues ++ [mkIssue filename lineNumber rule line]
       else issues)

/-- Outer loop of `analyzeWorkflow` over `lines` with the 0-based index
`i` (`lineNumber = i + 1`). -/
def lineLoop (filename : String) :
    List (List Char) → Nat → List WorkflowSecurityIssue → List WorkflowSecurityIssue
  | [], _, issues => issues
  | line :: rest, i, issues =>
    lineLoop filename rest (i + 1) (ruleLoop filename (i + 1) line securityRules issues)

/-- `WorkflowsScanner.analyzeWorkflow(filename, content)`. -/
def analyzeWorkflow (filename : String) (content : String) :
    List WorkflowSecurityIssue :=
  lineLoop filename (splitLines content.toList) 0 []

/-- One directory entry returned for `.github/workflows`, together with
the outcome of the per-file `getContent` call: `Except.error` models
that call throwing (propagating to the `catch` of `scanRepository`);
`Except.ok none` models a response without a `content` field (the file
is skipped); `Except.ok (some s)` models a response whose base64
`content` decodes to `s` (`Buffer.from(..., "base64").toString()` is
total, so the decoded text is carried directly). -/
structure WFile where
  name : String
  type : String
  fetch : Except String (Option String)

/-- Outcome of the directory-level `getContent` call on
`.github/workflows`: it throws (`err`), returns a non-array (`notArray`),
or returns the entry list (`arr`). -/
inductive WorkflowsDirResult where
  | err (msg : String)
  | notArray
  | arr (files : List WFile)

/-- JavaScript `name.endsWith(post)`. -/
def endsWithL (post l : List Char) : Bool :=
  List.isSuffixOf post l

/-- The file filter of `scanRepository`: entries that are not plain
files or lack a `.yml`/`.yaml` extension are skipped. -/
def eligibleFile (f : WFile) : Bool :=
  f.type = "file" &&
    (endsWithL ".yml".toList f.name.toList || endsWithL ".yaml".toList f.name.toList)

/-- The `for (const file of workflowFiles)` loop of `scanRepository`,
with the accumulated `issues` array explicit; a throwing per-file fetch
aborts the loop into the surrounding `catch`. -/
def scanFilesLoop : List WFile → List WorkflowSecurityIssue →
    Except String (List WorkflowSecurityIssue)
  | [], issues => Except.ok issues
  | f :: fs, issues =>
    if eligibleFile f then
      match f.fetch with
      | Except.error e => Except.error e
      | Except.ok none => scanFilesLoop fs issues
      | Except.ok (some content) =>
        scanFilesLoop fs (issues ++ analyzeWorkflow f.name content)
    else scanFilesLoop fs issues

/-- `WorkflowsScanner.scanRepository(repo)`, as a function of the
collaborator-supplied retrieval outcome `dir`.  Every control path of
the source returns a `WorkflowScanResult` (the whole body is wrapped in
`try`/`catch`), so the model is a total function. -/
def scanRepository (repo : String) (dir : WorkflowsDirResult) : WorkflowScanResult :=
  match dir with
  | WorkflowsDirResult.err e =>
    { repository := repo
      success := false
      message := "Error scanning workflows: " ++ e
      issues := [] }
  | WorkflowsDirResult.notArray =>
    { repository := repo
      success := false
      message := "No workflows directory found or not a directory"
      issues := [] }
  | WorkflowsDirResult.arr files =>
    match scanFilesLoop files [] with
    | Except.error e =>
      { repository := repo
        success := false
        message := "Error scanning workflows: " ++ e
        issues := [] }
    | Except.ok issues =>
      { repository := repo
        success := true
        message :=
          if issues.length > 0 then
            "Found " ++ toString issues.length ++ " security issues in workflows"
          else "No security issues found in workflows"
        issues := issues }

/-- Loop of `WorkflowsScanner.formatIssues` with the accumulated
`result` string explicit. -/
def formatIssuesLoop : List WorkflowSecurityIssue → String → String
  | [], result => result
  | issue :: rest, result =>
    formatIssuesLoop rest
      (result ++ ("### " ++ issue.rule ++ "\n\n")
        ++ ("**File**: `" ++ issue.file ++ "` (line " ++ toString issue.line ++ ")\n\n")
        ++ ("**Description**: " ++ issue.description ++ "\n\n")
        ++ ("**Code**:\n```yaml\n" ++ issue.content ++ "\n```\n\n")
        ++ ("**Remediation**: " ++ issue.remediation ++ "\n\n")
        ++ "---\n\n")

/-- `WorkflowsScanner.formatIssues(issues)`. -/
def formatIssues (issues : List WorkflowSecurityIssue) : String :=
  formatIssuesLoop issues ""

/-- `WorkflowsScanner.generateReport(scanResult)`. -/
def generateReport (scanResult : WorkflowScanResult) : String :=
  let report := "# Workflow Security Scan Report for " ++ scanResult.repository ++ "\n\n"
  if !scanResult.success then
    report ++ "## Error\n\n" ++ scanResult.message ++ "\n\n"
  else if scanResult.issues.length = 0 then
    report ++ "## Summary\n\nNo security issues found in workflows. Good job!\n\n"
  else
    let criticalIssues := scanResult.issues.filter
      (fun issue => decide (issue.severity = SecuritySeverity.critical))
    let highIssues := scanResult.issues.filter
      (fun issue => decide (issue.severity = SecuritySeverity.high))
    let mediumIssues := scanResult.issues.filter
      (fun issue => decide (issue.severity = SecuritySeverity.medium))
    let lowIssues := scanResult.issues.filter
      (fun issue => decide (issue.severity = SecuritySeverity.low))
    let report := report ++ "## Summary\n\n"
    let report := report ++ ("- Critical: " ++ toString criticalIssues.length ++ "\n")
    let report := report ++ ("- High: " ++ toString highIssues.length ++ "\n")
    let report := report ++ ("- Medium: " ++ toString mediumIssues.length ++ "\n")
    let report := report ++ ("- Low: " ++ toString lowIssues.length ++ "\n\n")
    let report := report ++
      (if criticalIssues.length > 0 then
        "## Critical Issues\n\n" ++ formatIssues criticalIssues else "")
    let report := report ++
      (if highIssues.length > 0 then
        "## High Issues\n\n" ++ formatIssues highIssues else "")
    let report := report ++
      (if mediumIssues.length > 0 then
        "## Medium Issues\n\n" ++ formatIssues mediumIssues else "")
    let report := report ++
      (if lowIssues.length > 0 then
        "## Low Issues\n\n" ++ formatIssues lowIssues else "")
    report

/-! ## Declarative forms used to state the ordering/multiplicity claims -/

/-- Findings of a single line, declaratively: one finding per matching
rule, in rule-set order. -/
def perLineFindings (filename : String) (lineNumber : Nat) (line : List Char) :
    List WorkflowSecurityIssue :=
  (securityRules.filter fun rule => rule.pattern line).map
    fun rule => mkIssue filename lineNumber rule line

/-- Declarative form of `analyzeWorkflow`: per-line findings
concatenated in line order, line numbers 1-based. -/
def analyzeWorkflowSpec (filename : String) (content : String) :
    List WorkflowSecurityIssue :=
  ((splitLines content.toList).enum).flatMap fun p => perLineFindings filename (p.1 + 1) p.2

/-- All per-file content fetches that `scanRepository` will perform on
this entry list succeed (fetches of skipped entries are never
performed). -/
def fetchesOk : List WFile → Bool
  | [] => true
  | f :: fs =>
    (if eligibleFile f then
      (match f.fetch with
       | Except.error _ => false
       | Except.ok _ => true)
     else true) && fetchesOk fs

/-- The `(filename, decoded content)` pairs that `scanRepository`
actually analyzes, in directory order. -/
def okFiles : List WFile → List (String × String)
  | [] => []
  | f :: fs =>
    if eligibleFile f then
      match f.fetch with
      | Except.ok (some c) => (f.name, c) :: okFiles fs
      | _ => okFiles fs
    else okFiles fs

/-- The text block `formatIssues` appends for one issue. -/
def issueEntry (issue : WorkflowSecurityIssue) : String :=
  ("### " ++ issue.rule ++ "\n\n")
    ++ ("**File**: `" ++ issue.file ++ "` (line " ++ toString issue.line ++ ")\n\n")
    ++ ("**Description**: " ++ issue.description ++ "\n\n")
    ++ ("**Code**:\n```yaml\n" ++ issue.content ++ "\n```\n\n")
    ++ ("**Remediation**: " ++ issue.remediation ++ "\n\n")
    ++ "---\n\n"

/-- Concatenation of a list of strings, in order. -/
def strConcat (l : List String) : String := l.foldr (fun a b => a ++ b) ""

/-- Remove every carriage return. -/
def stripCRl : List Char → List Char
  | [] => []
  | c :: cs => if c = Char.ofNat 13 then stripCRl cs else c :: stripCRl cs

/-- `stripCR` on strings. -/
def stripCR (s : String) : String := String.mk (stripCRl s.toList)

/-- Every carriage return is immediately followed by a line feed. -/
def crlfOnly : List Char → Bool
  | [] => true
  | c :: cs =>
    if c = Char.ofNat 13 then
      (match cs with
       | d :: _ => d = Char.ofNat 10
       | [] => false) && crlfOnly cs
    else crlfOnly cs

/-- `pat` occurs (contiguously) somewhere in `l`. -/
def containsList (pat l : List Char) : Bool :=
  existsSuffix (fun suf => startsWithN idN pat suf) l

/-- A concrete finding, used to evaluate the report renderer. -/
def sampleIssue : WorkflowSecurityIssue :=
  { file := "a.yml", line := 1, rule := "pin-actions-versions",
    description := "Pin actions to a specific SHA",
    severity := SecuritySeverity.high,
    remediation := "Pin actions to a full length commit SHA instead of using branch names or version tags",
    content := "uses: foo/bar@main" }

/-- A concrete successful scan result with one finding. -/
def sampleResult : WorkflowScanResult :=
  { repository := "repo-e", success := true,
    message := "Found 1 security issues in workflows", issues := [sampleIssue] }

example : noPlaintextSecretsPat ("password: \"supersecret123\"".toList) = true := by decide

example : noPlaintextSecretsPat ("password_hash: \"abc\"".toList) = false := by decide

example : pinActionsVersionsPat ("uses: actions/checkout@main".toList) = true := by decide

example : pinActionsVersionsPat ("uses: actions/checkout@v3".toList) = false := by decide

example : thirdPartyActionReviewPat ("uses: actions/checkout@v3".toList) = true := by decide

example : thirdPartyActionReviewPat ("uses:actions/checkout@v3".toList) = false := by decide

example : thirdPartyActionReviewPat ("uses: someoneelse/custom-action@v1".toList) = true := by decide

example : scriptInjectionPat ("echo \"\x24\x7b\x7b github.event.issue.title \x7d\x7d\"".toList) = true := by decide

/-! ## Structural lemmas about the scanner loops -/

/-- The inner rule loop appends, to the already accumulated issues, one
finding per matching rule, in rule-set order. -/
theorem ruleLoop_eq (filename : String) (n : Nat) (line : List Char)
    (rs : List SecurityRule) : ∀ issues,
    ruleLoop filename n line rs issues =
      issues ++ (rs.filter fun r => r.pattern line).map
        (fun r => mkIssue filename n r line) := by
  induction rs with
  | nil => intro issues; simp [ruleLoop]
  | cons r rs ih =>
    intro issues
    by_cases h : r.pattern line <;>
      simp [ruleLoop, h, ih, List.filter_cons]

/-- The outer line loop appends the per-line findings in line order,
with 1-based line numbers. -/
theorem lineLoop_eq (filename : String) (lines : List (List Char)) :
    ∀ (i : Nat) issues,
    lineLoop filename lines i issues =
      issues ++ (lines.enumFrom i).flatMap
        (fun p => perLineFindings filename (p.1 + 1) p.2) := by
  induction lines with
  | nil => intro i issues; simp [lineLoop]
  | cons l ls ih =>
    intro i issues
    simp [lineLoop, ih, ruleLoop_eq, perLineFindings, List.enumFrom]

/-- `analyzeWorkflow` computes its declarative form. -/
theorem analyzeWorkflow_eq_spec (filename content : String) :
    analyzeWorkflow filename content = analyzeWorkflowSpec filename content := by
  simp [analyzeWorkflow, analyzeWorkflowSpec, List.enum, lineLoop_eq]

/-- When every performed fetch succeeds, the file loop returns the
concatenation, in directory order, of the per-file findings of the
analyzed files. -/
theorem scanFilesLoop_ok (files : List WFile) (h : fetchesOk files = true) :
    ∀ issues, scanFilesLoop files issues =
      Except.ok (issues ++ (okFiles files).flatMap
        (fun p => analyzeWorkflow p.1 p.2)) := by
  induction files with
  | nil => intro issues; simp [scanFilesLoop, okFiles]
  | cons f fs ih =>
    intro issues
    by_cases he : eligibleFile f
    · cases hf : f.fetch with
      | error e =>
        exfalso
        simp [fetchesOk, he, hf] at h
      | ok oc =>
        have hfs : fetchesOk fs = true := by
          simp [fetchesOk, he, hf] at h
          exact h
        cases oc with
        | none => simp [scanFilesLoop, he, hf, okFiles, ih hfs]
        | some c => simp [scanFilesLoop, he, hf, okFiles, ih hfs]
    · have hfs : fetchesOk fs = true := by
        simp [fetchesOk, he] at h
        exact h
      simp [scanFilesLoop, he, okFiles, ih hfs]

/-- When some performed fetch fails, the file loop aborts with that
error (into the `catch` of `scanRepository`). -/
theorem scanFilesLoop_err (files : List WFile) (h : fetchesOk files = false) :
    ∀ issues, ∃ e, scanFilesLoop files issues = Except.error e := by
  induction files with
  | nil => simp [fetchesOk] at h
  | cons f fs ih =>
    intro issues
    by_cases he : eligibleFile f
    · cases hf : f.fetch with
      | error e => exact ⟨e, by simp [scanFilesLoop, he, hf]⟩
      | ok oc =>
        have hfs : fetchesOk fs = false := by
          simp [fetchesOk, he, hf] at h
          exact h
        cases oc with
        | none =>
          obtain ⟨e, he2⟩ := ih hfs issues
          exact ⟨e, by simp [scanFilesLoop, he, hf, he2]⟩
        | some c =>
          obtain ⟨e, he2⟩ := ih hfs (issues ++ analyzeWorkflow f.name c)
          exact ⟨e, by simp [scanFilesLoop, he, hf, he2]⟩
    · have hfs : fetchesOk fs = false := by
        simp [fetchesOk, he] at h
        exact h
      simpa [scanFilesLoop, he] using ih hfs issues

/-- The `formatIssues` loop appends one `issueEntry` block per issue, in
order. -/
theorem formatIssuesLoop_eq (issues : List WorkflowSecurityIssue) :
    ∀ acc, formatIssuesLoop issues acc = acc ++ strConcat (issues.map issueEntry) := by
  induction issues with
  | nil => intro acc; simp [formatIssuesLoop, strConcat]
  | cons i rest ih =>
    intro acc
    simp only [formatIssuesLoop, ih, strConcat, List.map_cons, List.foldr_cons]
    rw [issueEntry]
    simp [String.append_assoc]

/-- `formatIssues` is the concatenation of the issue blocks. -/
theorem formatIssues_eq (issues : List WorkflowSecurityIssue) :
    formatIssues issues = strConcat (issues.map issueEntry) := by
  simp [formatIssues, formatIssuesLoop_eq]

/-! ## Claim theorems -/

/-- C1 (code bug evidence): the spec claims the third-party-action-review
rule never fires on a `uses:` reference in the first-party `actions/`
namespace, and the rule's own description and negative lookahead agree;
but on the line `uses: actions/checkout@v3` the scanner does produce a
third-party-action-review finding, because `\s*` in
`/uses:\s*(?!actions\/|\.\/)/` may match zero characters, after which
the negative lookahead inspects the whitespace character and vacuously
succeeds.  The exemption only takes effect when `actions/` or `./`
immediately follows the colon with no whitespace. -/
theorem third_party_review_fires_on_first_party_checkout :
    (analyzeWorkflow "ci.yml" "uses: actions/checkout@v3").map
        (fun issue => issue.rule) = ["third-party-action-review"] ∧
    thirdPartyActionReviewPat ("uses: actions/checkout@v3".toList) = true ∧
    thirdPartyActionReviewPat ("uses:actions/checkout@v3".toList) = false := by
  refine ⟨by decide, by decide, by decide⟩

/-- C3: a file containing `uses: actions/checkout@main` yields exactly
one finding of the `pin-actions-versions` rule, with severity high; a
file containing `uses: actions/checkout@` followed by a 40-hex-digit
commit identifier yields no finding of that rule. -/
theorem pin_actions_versions_scenarios :
    ((analyzeWorkflow "wf.yml" "uses: actions/checkout@main").filter
        (fun issue => decide (issue.rule = "pin-actions-versions"))) =
      [{ file := "wf.yml", line := 1, rule := "pin-actions-versions",
         description := "Pin actions to a specific SHA",
         severity := SecuritySeverity.high,
         remediation := "Pin actions to a full length commit SHA instead of using branch names or version tags",
         content := "uses: actions/checkout@main" }] ∧
    ((analyzeWorkflow "wf.yml"
        "uses: actions/checkout@a1b2c3d4e5f6a7b8c9d0e1f2a3b4c5d6e7f8a9b0").filter
        (fun issue => decide (issue.rule = "pin-actions-versions"))) = [] := by
  exact ⟨by decide, by decide⟩

/-- C9: scanning and rendering are pure functions of the inputs; running
the scan twice on the same content yields identical results, and
rendering the same `ScanResult` twice yields byte-identical text. -/
theorem scan_render_deterministic :
    (∀ filename content, analyzeWorkflow filename content = analyzeWorkflow filename content) ∧
    (∀ repo dir, scanRepository repo dir = scanRepository repo dir) ∧
    (∀ result, generateReport result = generateReport result) ∧
    (∀ result, (generateReport result).data = (generateReport result).data) :=
  ⟨fun _ _ => rfl, fun _ _ => rfl, fun _ => rfl, fun _ => rfl⟩

/-- C5: a retrieval failure yields `succeeded = false`, a descriptive
message, and no findings; in every result whatsoever, `succeeded =
false` implies `findings = []` (a failure is never mixed with
findings).  `scanRepository` is a total function — every control path,
including both failure shapes, returns a `WorkflowScanResult` rather
than raising. -/
theorem retrieval_failure_result (repo m : String) (dir : WorkflowsDirResult)
    (hfail : (scanRepository repo dir).success = false) :
    (scanRepository repo dir).issues = [] ∧
    (scanRepository repo (WorkflowsDirResult.err m)).success = false ∧
    (scanRepository repo (WorkflowsDirResult.err m)).issues = [] ∧
    (scanRepository repo (WorkflowsDirResult.err m)).message =
      "Error scanning workflows: " ++ m ∧
    (scanRepository repo WorkflowsDirResult.notArray).success = false ∧
    (scanRepository repo WorkflowsDirResult.notArray).issues = [] ∧
    (scanRepository repo WorkflowsDirResult.notArray).message =
      "No workflows directory found or not a directory" := by
  refine ⟨?_, rfl, rfl, rfl, rfl, rfl, rfl⟩
  cases dir with
  | err e => rfl
  | notArray => rfl
  | arr files =>
    cases h : scanFilesLoop files [] with
    | error e => simp [scanRepository, h]
    | ok issues => simp [scanRepository, h] at hfail

theorem retrieval_failure_result_witness :
    (scanRepository "repo-a" (WorkflowsDirResult.err "missing directory")).success = false ∧
    ((scanRepository "repo-a" (WorkflowsDirResult.err "missing directory")).issues = [] ∧
      (scanRepository "repo-a" (WorkflowsDirResult.err "boom")).success = false ∧
      (scanRepository "repo-a" (WorkflowsDirResult.err "boom")).issues = [] ∧
      (scanRepository "repo-a" (WorkflowsDirResult.err "boom")).message =
        "Error scanning workflows: " ++ "boom" ∧
      (scanRepository "repo-a" WorkflowsDirResult.notArray).success = false ∧
      (scanRepository "repo-a" WorkflowsDirResult.notArray).issues = [] ∧
      (scanRepository "repo-a" WorkflowsDirResult.notArray).message =
        "No workflows directory found or not a directory") :=
  ⟨rfl, retrieval_failure_result "repo-a" "boom"
    (WorkflowsDirResult.err "missing directory") rfl⟩

/-- C6: `succeeded` is false only when the source could not be retrieved
or read: whenever every performed fetch succeeds the result has
`succeeded = true` (regardless of how many findings there are), and
scanning an empty file list yields `succeeded = true` with no findings
and the no-issues message. -/
theorem success_when_retrievable (repo : String) (files : List WFile)
    (h : fetchesOk files = true) :
    (scanRepository repo (WorkflowsDirResult.arr files)).success = true ∧
    scanRepository repo (WorkflowsDirResult.arr []) =
      { repository := repo, success := true,
        message := "No security issues found in workflows", issues := [] } := by
  constructor
  · have hok := scanFilesLoop_ok files h []
    simp [scanRepository, hok]
  · rfl

theorem success_when_retrievable_witness :
    fetchesOk [] = true ∧
    ((scanRepository "repo-b" (WorkflowsDirResult.arr [])).success = true ∧
      scanRepository "repo-b" (WorkflowsDirResult.arr []) =
        { repository := "repo-b", success := true,
          message := "No security issues found in workflows", issues := [] }) :=
  ⟨rfl, success_when_retrievable "repo-b" [] rfl⟩

/-- C10: every successful scan reports the exact number of findings in
its message: `Found N security issues in workflows` when `N > 0`, and
`No security issues found in workflows` when there are none. -/
theorem success_message_counts (repo : String) (dir : WorkflowsDirResult)
    (h : (scanRepository repo dir).success = true) :
    (scanRepository repo dir).message =
      (if (scanRepository repo dir).issues.length > 0 then
        "Found " ++ toString (scanRepository repo dir).issues.length ++
          " security issues in workflows"
       else "No security issues found in workflows") := by
  cases dir with
  | err e => simp [scanRepository] at h
  | notArray => simp [scanRepository] at h
  | arr files =>
    cases hf : scanFilesLoop files [] with
    | error e => simp [scanRepository, hf] at h
    | ok issues => simp [scanRepository, hf]

theorem success_message_counts_witness :
    (scanRepository "repo-c" (WorkflowsDirResult.arr [])).success = true ∧
    (scanRepository "repo-c" (WorkflowsDirResult.arr [])).message =
      (if (scanRepository "repo-c" (WorkflowsDirResult.arr [])).issues.length > 0 then
        "Found " ++ toString (scanRepository "repo-c"
          (WorkflowsDirResult.arr [])).issues.length ++ " security issues in workflows"
       else "No security issues found in workflows") :=
  ⟨rfl, success_message_counts "repo-c" (WorkflowsDirResult.arr []) rfl⟩

/-! ## Carriage-return insensitivity of the matchers (towards C8) -/

/-- Appending a final CR to the input shifts `matchLit` results: the
literal itself can never consume the CR (its characters are not CR). -/
theorem matchLit_append_cr (norm : Char → Char)
    (hnorm : norm (Char.ofNat 13) = Char.ofNat 13) :
    ∀ ps : List Char, Char.ofNat 13 ∉ ps → ∀ xs,
    matchLit norm ps (xs ++ [Char.ofNat 13]) =
      (matchLit norm ps xs).map (fun r => r ++ [Char.ofNat 13]) := by
  intro ps
  induction ps with
  | nil => intro _ xs; simp [matchLit]
  | cons p ps ih =>
    intro hps xs
    simp only [List.mem_cons, not_or] at hps
    obtain ⟨hp, hps2⟩ := hps
    cases xs with
    | nil =>
      simp [matchLit, hnorm, hp]
    | cons c cs =>
      by_cases h : norm c = p
      · simp [matchLit, h, ih hps2 cs]
      · simp [matchLit, h]

/-- `startsWithN` ignores a final CR when the literal contains none. -/
theorem startsWithN_append_cr (norm : Char → Char)
    (hnorm : norm (Char.ofNat 13) = Char.ofNat 13) (ps : List Char)
    (hps : Char.ofNat 13 ∉ ps) (xs : List Char) :
    startsWithN norm ps (xs ++ [Char.ofNat 13]) = startsWithN norm ps xs := by
  unfold startsWithN
  rw [matchLit_append_cr norm hnorm ps hps xs]
  cases matchLit norm ps xs <;> simp

/-- `litThen` ignores a final CR when the literal contains none and the
continuation does. -/
theorem litThen_append_cr (norm : Char → Char)
    (hnorm : norm (Char.ofNat 13) = Char.ofNat 13) (ps : List Char)
    (hps : Char.ofNat 13 ∉ ps) (k : List Char → Bool)
    (hk : ∀ xs, k (xs ++ [Char.ofNat 13]) = k xs) (xs : List Char) :
    litThen norm ps k (xs ++ [Char.ofNat 13]) = litThen norm ps k xs := by
  unfold litThen
  rw [matchLit_append_cr norm hnorm ps hps xs]
  cases matchLit norm ps xs with
  | none => simp
  | some rest => simp [hk rest]

/-- A pattern that ignores a final CR at each start position ignores it
as a whole-string test. -/
theorem existsSuffix_append_cr (p : List Char → Bool)
    (hp : ∀ xs, p (xs ++ [Char.ofNat 13]) = p xs) (m : List Char) :
    existsSuffix p (m ++ [Char.ofNat 13]) = existsSuffix p m := by
  induction m with
  | nil =>
    have h0 := hp []
    simp only [List.nil_append] at h0
    simp [existsSuffix, h0]
  | cons c cs ih =>
    have hc := hp (c :: cs)
    simp only [List.cons_append] at hc ih ⊢
    simp [existsSuffix, hc, ih]

theorem r1Body_append_cr : ∀ xs, r1Body (xs ++ [Char.ofNat 13]) = r1Body xs := by
  intro xs
  induction xs with
  | nil => decide
  | cons c cs ih =>
    by_cases h : isQuote c = true <;> simp [r1Body, h, ih]

theorem r1Quoted_append_cr : ∀ xs, r1Quoted (xs ++ [Char.ofNat 13]) = r1Quoted xs := by
  intro xs
  cases xs with
  | nil => decide
  | cons c cs =>
    by_cases h : isQuote c = true <;> simp [r1Quoted, h, r1Body_append_cr cs]

theorem r1Sp_append_cr : ∀ xs, r1Sp (xs ++ [Char.ofNat 13]) = r1Sp xs := by
  intro xs
  induction xs with
  | nil => decide
  | cons c cs ih =>
    by_cases h : isJsSpace c = true
    · simp [r1Sp, h, ih]
    · by_cases h2 : isQuote c = true <;>
        simp [r1Sp, h, h2, r1Quoted_append_cr cs]

theorem r1Colon_append_cr : ∀ xs, r1Colon (xs ++ [Char.ofNat 13]) = r1Colon xs := by
  intro xs
  cases xs with
  | nil => decide
  | cons c cs => simp [r1Colon, r1Sp_append_cr cs]

theorem r1At_append_cr : ∀ xs, r1At (xs ++ [Char.ofNat 13]) = r1At xs := by
  intro xs
  unfold r1At
  simp only [secretKeywords, List.any_cons, List.any_nil]
  rw [litThen_append_cr lowerN (by decide) _ (by decide) r1Colon r1Colon_append_cr xs,
    litThen_append_cr lowerN (by decide) _ (by decide) r1Colon r1Colon_append_cr xs,
    litThen_append_cr lowerN (by decide) _ (by decide) r1Colon r1Colon_append_cr xs,
    litThen_append_cr lowerN (by decide) _ (by decide) r1Colon r1Colon_append_cr xs]

theorem noPlaintextSecretsPat_append_cr (m : List Char) :
    noPlaintextSecretsPat (m ++ [Char.ofNat 13]) = noPlaintextSecretsPat m :=
  existsSuffix_append_cr r1At r1At_append_cr m

theorem r2Ref_append_cr : ∀ xs, r2Ref (xs ++ [Char.ofNat 13]) = r2Ref xs := by
  intro xs
  cases xs with
  | nil => decide
  | cons c cs =>
    have h1 := startsWithN_append_cr lowerN (by decide) ("main".toList) (by decide) (c :: cs)
    have h2 := startsWithN_append_cr lowerN (by decide) ("master".toList) (by decide) (c :: cs)
    have h3 := startsWithN_append_cr lowerN (by decide) ("latest".toList) (by decide) (c :: cs)
    simp only [List.cons_append] at h1 h2 h3 ⊢
    unfold r2Ref
    simp only [h1, h2, h3]

theorem r2Go_append_cr : ∀ xs, r2Go (xs ++ [Char.ofNat 13]) = r2Go xs := by
  intro xs
  induction xs with
  | nil => decide
  | cons c cs ih =>
    by_cases h : c = Char.ofNat 64 <;> simp [r2Go, h, ih, r2Ref_append_cr cs]

theorem r2AfterUses_append_cr : ∀ xs, r2AfterUses (xs ++ [Char.ofNat 13]) = r2AfterUses xs := by
  intro xs
  cases xs with
  | nil => decide
  | cons c cs =>
    by_cases h : c = Char.ofNat 64 <;> simp [r2AfterUses, h, r2Go_append_cr cs]

theorem r2At_append_cr : ∀ xs, r2At (xs ++ [Char.ofNat 13]) = r2At xs := by
  intro xs
  unfold r2At
  exact litThen_append_cr lowerN (by decide) _ (by decide) r2AfterUses r2AfterUses_append_cr xs

theorem pinActionsVersionsPat_append_cr (m : List Char) :
    pinActionsVersionsPat (m ++ [Char.ofNat 13]) = pinActionsVersionsPat m :=
  existsSuffix_append_cr r2At r2At_append_cr m

theorem r3After_append_cr : ∀ xs, r3After (xs ++ [Char.ofNat 13]) = r3After xs := by
  intro xs
  induction xs with
  | nil => decide
  | cons c cs ih =>
    have h1 := startsWithN_append_cr idN (by decide) ("actions/".toList) (by decide) (c :: cs)
    have h2 := startsWithN_append_cr idN (by decide) ("./".toList) (by decide) (c :: cs)
    simp only [List.cons_append] at h1 h2 ⊢
    unfold r3After
    simp only [h1, h2, ih]

theorem r3At_append_cr : ∀ xs, r3At (xs ++ [Char.ofNat 13]) = r3At xs := by
  intro xs
  unfold r3At
  exact litThen_append_cr idN (by decide) _ (by decide) r3After r3After_append_cr xs

theorem thirdPartyActionReviewPat_append_cr (m : List Char) :
    thirdPartyActionReviewPat (m ++ [Char.ofNat 13]) = thirdPartyActionReviewPat m :=
  existsSuffix_append_cr r3At r3At_append_cr m

theorem r4Close_append_cr : ∀ xs, r4Close (xs ++ [Char.ofNat 13]) = r4Close xs := by
  intro xs
  induction xs with
  | nil => decide
  | cons c cs ih =>
    by_cases h : isJsSpace c = true
    · simp [r4Close, h, ih]
    · have h1 := startsWithN_append_cr idN (by decide)
        [Char.ofNat 0x7d, Char.ofNat 0x7d] (by decide) (c :: cs)
      simp only [List.cons_append] at h1 ⊢
      unfold r4Close
      rw [if_neg h, if_neg h]
      exact h1

theorem r4Open_append_cr : ∀ xs, r4Open (xs ++ [Char.ofNat 13]) = r4Open xs := by
  intro xs
  induction xs with
  | nil => decide
  | cons c cs ih =>
    by_cases h : isJsSpace c = true
    · simp [r4Open, h, ih]
    · have h1 := litThen_append_cr idN (by decide) ("github.event.issue.title".toList)
        (by decide) r4Close r4Close_append_cr (c :: cs)
      simp only [List.cons_append] at h1 ⊢
      unfold r4Open
      rw [if_neg h, if_neg h]
      exact h1

theorem r4At_append_cr : ∀ xs, r4At (xs ++ [Char.ofNat 13]) = r4At xs := by
  intro xs
  unfold r4At
  exact litThen_append_cr idN (by decide) _ (by decide) r4Open r4Open_append_cr xs

theorem scriptInjectionPat_append_cr (m : List Char) :
    scriptInjectionPat (m ++ [Char.ofNat 13]) = scriptInjectionPat m :=
  existsSuffix_append_cr r4At r4At_append_cr m

theorem trimR_append_cr : ∀ xs, trimR (xs ++ [Char.ofNat 13]) = trimR xs := by
  intro xs
  induction xs with
  | nil => decide
  | cons c cs ih => simp [trimR, ih]

theorem jsTrim_append_cr : ∀ xs, jsTrim (xs ++ [Char.ofNat 13]) = jsTrim xs := by
  intro xs
  induction xs with
  | nil => decide
  | cons c cs ih =>
    by_cases h : isJsSpace c = true
    · simp only [List.cons_append]
      unfold jsTrim trimL
      rw [if_pos h, if_pos h]
      exact ih
    · simp only [List.cons_append]
      unfold jsTrim trimL
      rw [if_neg h, if_neg h]
      simp [trimR, trimR_append_cr cs]

theorem splitLines_ne_nil : ∀ l, splitLines l ≠ [] := by
  intro l
  cases l with
  | nil => simp [splitLines]
  | cons c cs =>
    by_cases h : c = Char.ofNat 10
    · simp [splitLines, h]
    · cases hs : splitLines cs with
      | nil => simp [splitLines, h, hs]
      | cons l0 ls => simp [splitLines, h, hs]

theorem splitLines_stripCR : ∀ l, splitLines (stripCRl l) = (splitLines l).map stripCRl := by
  intro l
  induction l with
  | nil => simp [splitLines, stripCRl]
  | cons c cs ih =>
    by_cases hcr : c = Char.ofNat 13
    · subst hcr
      cases hs : splitLines cs with
      | nil => exact absurd hs (splitLines_ne_nil cs)
      | cons l0 ls =>
        have hl : stripCRl (Char.ofNat 13 :: cs) = stripCRl cs := by simp [stripCRl]
        have hr : splitLines (Char.ofNat 13 :: cs) = (Char.ofNat 13 :: l0) :: ls := by
          simp [splitLines, hs]
        rw [hl, hr, ih, hs]
        simp [stripCRl]
    · by_cases hnl : c = Char.ofNat 10
      · subst hnl
        have hl : stripCRl (Char.ofNat 10 :: cs) = Char.ofNat 10 :: stripCRl cs := by
          simp [stripCRl]
        rw [hl]
        have hr : splitLines (Char.ofNat 10 :: cs) = [] :: splitLines cs := rfl
        have hr2 : splitLines (Char.ofNat 10 :: stripCRl cs) = [] :: splitLines (stripCRl cs) := rfl
        rw [hr, hr2, ih]
        simp [stripCRl]
      · cases hs : splitLines cs with
        | nil => exact absurd hs (splitLines_ne_nil cs)
        | cons l0 ls =>
          have hl : stripCRl (c :: cs) = c :: stripCRl cs := by simp [stripCRl, hcr]
          have hsl : splitLines (stripCRl cs) = stripCRl l0 :: ls.map stripCRl := by
            rw [ih, hs]; rfl
          have hleft : splitLines (c :: stripCRl cs) =
              (c :: stripCRl l0) :: ls.map stripCRl := by
            simp [splitLines, hnl, hsl]
          have hright : splitLines (c :: cs) = (c :: l0) :: ls := by
            simp [splitLines, hnl, hs]
          rw [hl, hleft, hright]
          simp [stripCRl, hcr]

/-- Under the CRLF-only discipline, every split line is either free of
carriage returns or ends in exactly one. -/
theorem splitLines_crlf_shape : ∀ l, crlfOnly l = true →
    ∀ m ∈ splitLines l, m = stripCRl m ∨ m = stripCRl m ++ [Char.ofNat 13] := by
  intro l
  induction l with
  | nil =>
    intro _ m hm
    simp [splitLines] at hm
    subst hm
    left; rfl
  | cons c cs ih =>
    intro h m hm
    by_cases hcr : c = Char.ofNat 13
    · subst hcr
      cases cs with
      | nil => simp [crlfOnly] at h
      | cons d cs2 =>
        have hd : d = Char.ofNat 10 ∧ crlfOnly (d :: cs2) = true := by
          simpa [crlfOnly] using h
        obtain ⟨hd1, hd2⟩ := hd
        subst hd1
        have hsplit : splitLines (Char.ofNat 13 :: Char.ofNat 10 :: cs2) =
            [Char.ofNat 13] :: splitLines cs2 := rfl
        rw [hsplit] at hm
        rcases List.mem_cons.mp hm with hm | hm
        · subst hm
          right; decide
        · exact ih hd2 m (List.mem_cons_of_mem _ hm)
    · have h2 : crlfOnly cs = true := by
        simpa [crlfOnly, hcr] using h
      by_cases hnl : c = Char.ofNat 10
      · subst hnl
        have hsplit : splitLines (Char.ofNat 10 :: cs) = [] :: splitLines cs := rfl
        rw [hsplit] at hm
        rcases List.mem_cons.mp hm with hm | hm
        · subst hm; left; rfl
        · exact ih h2 m hm
      · cases hs : splitLines cs with
        | nil => exact absurd hs (splitLines_ne_nil cs)
        | cons l0 ls =>
          have hsplit : splitLines (c :: cs) = (c :: l0) :: ls := by
            simp [splitLines, hnl, hs]
          rw [hsplit] at hm
          rcases List.mem_cons.mp hm with hm | hm
          · subst hm
            have hl0 := ih h2 l0 (by rw [hs]; exact List.mem_cons_self l0 ls)
            have hstep : stripCRl (c :: l0) = c :: stripCRl l0 := by
              simp [stripCRl, hcr]
            rcases hl0 with hl0 | hl0
            · left; rw [hstep, ← hl0]
            · right
              rw [hstep]
              conv_lhs => rw [hl0]
              simp
          · exact ih h2 m (by rw [hs]; exact List.mem_cons_of_mem _ hm)

/-- A trailing carriage return on a line changes no rule verdict and no
trimmed text, hence no finding. -/
theorem perLineFindings_append_cr (f : String) (n : Nat) (m : List Char) :
    perLineFindings f n (m ++ [Char.ofNat 13]) = perLineFindings f n m := by
  unfold perLineFindings
  simp only [securityRules]
  simp [List.filter, mkIssue, jsTrim_append_cr m, noPlaintextSecretsPat_append_cr m,
    pinActionsVersionsPat_append_cr m, thirdPartyActionReviewPat_append_cr m,
    scriptInjectionPat_append_cr m]

theorem enumFrom_flatMap_stripCR (f : String) :
    ∀ (lines : List (List Char)),
    (∀ m ∈ lines, m = stripCRl m ∨ m = stripCRl m ++ [Char.ofNat 13]) →
    ∀ n : Nat,
    ((lines.map stripCRl).enumFrom n).flatMap (fun p => perLineFindings f (p.1 + 1) p.2) =
      (lines.enumFrom n).flatMap (fun p => perLineFindings f (p.1 + 1) p.2) := by
  intro lines
  induction lines with
  | nil => intro _ n; simp
  | cons m ms ih =>
    intro hsh n
    have hm := hsh m (List.mem_cons_self m ms)
    have hms : ∀ x ∈ ms, x = stripCRl x ∨ x = stripCRl x ++ [Char.ofNat 13] :=
      fun x hx => hsh x (List.mem_cons_of_mem m hx)
    simp only [List.map_cons, List.enumFrom, List.flatMap_cons]
    rw [ih hms (n + 1)]
    rcases hm with hm | hm
    · rw [← hm]
    · conv_rhs => rw [hm]
      rw [perLineFindings_append_cr]

/-- C8: for content in which every carriage return is immediately
followed by a line feed, scanning yields exactly the same findings
(same line numbers, rule ids, severities, and trimmed matched text) as
scanning the content with all carriage returns removed: the
`split("\n")` line splitting leaves each such CR as a trailing line
character, which no rule pattern and no `trim()` result observes. -/
theorem analyzeWorkflow_cr_insensitive (filename content : String)
    (h : crlfOnly content.toList = true) :
    analyzeWorkflow filename content = analyzeWorkflow filename (stripCR content) := by
  rw [analyzeWorkflow_eq_spec, analyzeWorkflow_eq_spec]
  unfold analyzeWorkflowSpec
  have hlist : (stripCR content).toList = stripCRl content.toList := rfl
  rw [hlist, splitLines_stripCR]
  have hsh := splitLines_crlf_shape content.toList h
  unfold List.enum
  exact (enumFrom_flatMap_stripCR filename (splitLines content.toList) hsh 0).symm

theorem analyzeWorkflow_cr_insensitive_witness :
    crlfOnly ("token: \"abc\"\r\nuses: foo/bar@main\r\n".toList) = true ∧
    analyzeWorkflow "wf.yml" "token: \"abc\"\r\nuses: foo/bar@main\r\n" =
      analyzeWorkflow "wf.yml" (stripCR "token: \"abc\"\r\nuses: foo/bar@main\r\n") :=
  ⟨by decide, analyzeWorkflow_cr_insensitive "wf.yml"
    "token: \"abc\"\r\nuses: foo/bar@main\r\n" (by decide)⟩

/-- C2: per-line findings are exactly one per matching rule (zero for a
line matching no rule), in rule-set order; per file they are
concatenated in line order with 1-based line numbers; and across a
successfully scanned repository the `ScanResult` carries the
concatenation in input-file order. -/
theorem findings_order_and_multiplicity (repo filename content : String)
    (files : List WFile) (h : fetchesOk files = true) :
    analyzeWorkflow filename content =
      ((splitLines content.toList).enum).flatMap
        (fun p => (securityRules.filter fun rule => rule.pattern p.2).map
          (fun rule => mkIssue filename (p.1 + 1) rule p.2)) ∧
    (scanRepository repo (WorkflowsDirResult.arr files)).issues =
      (okFiles files).flatMap (fun p => analyzeWorkflow p.1 p.2) := by
  constructor
  · rw [analyzeWorkflow_eq_spec]
    rfl
  · have hok := scanFilesLoop_ok files h []
    simp [scanRepository, hok]

theorem findings_order_and_multiplicity_witness :
    fetchesOk [⟨"a.yml", "file", Except.ok (some "uses: foo/bar@main")⟩] = true ∧
    (analyzeWorkflow "a.yml" "uses: foo/bar@main" =
      ((splitLines "uses: foo/bar@main".toList).enum).flatMap
        (fun p => (securityRules.filter fun rule => rule.pattern p.2).map
          (fun rule => mkIssue "a.yml" (p.1 + 1) rule p.2)) ∧
      (scanRepository "repo-d" (WorkflowsDirResult.arr
          [⟨"a.yml", "file", Except.ok (some "uses: foo/bar@main")⟩])).issues =
        (okFiles [⟨"a.yml", "file", Except.ok (some "uses: foo/bar@main")⟩]).flatMap
          (fun p => analyzeWorkflow p.1 p.2)) :=
  ⟨by decide, findings_order_and_multiplicity "repo-d" "a.yml" "uses: foo/bar@main"
    [⟨"a.yml", "file", Except.ok (some "uses: foo/bar@main")⟩] (by decide)⟩

/-- C7: for a successful scan with at least one finding, the report is
the repository header, a summary whose four counts (in the fixed order
critical, high, medium, low, printing 0 for empty buckets) are exactly
the numbers of findings of each severity, followed by one subsection
per severity in the same order, present exactly when that severity has
at least one finding, each listing every finding of that severity — in
scan order — with its rule, file, line, description, offending text and
remediation. -/
theorem report_structure (r : WorkflowScanResult)
    (hs : r.success = true) (hne : r.issues ≠ []) :
    generateReport r =
      "# Workflow Security Scan Report for " ++ r.repository ++ "\n\n"
        ++ "## Summary\n\n"
        ++ ("- Critical: " ++ toString (r.issues.filter
              (fun issue => decide (issue.severity = SecuritySeverity.critical))).length ++ "\n")
        ++ ("- High: " ++ toString (r.issues.filter
              (fun issue => decide (issue.severity = SecuritySeverity.high))).length ++ "\n")
        ++ ("- Medium: " ++ toString (r.issues.filter
              (fun issue => decide (issue.severity = SecuritySeverity.medium))).length ++ "\n")
        ++ ("- Low: " ++ toString (r.issues.filter
              (fun issue => decide (issue.severity = SecuritySeverity.low))).length ++ "\n\n")
        ++ (if (r.issues.filter
              (fun issue => decide (issue.severity = SecuritySeverity.critical))) ≠ [] then
              "## Critical Issues\n\n" ++ strConcat ((r.issues.filter
                (fun issue => decide (issue.severity = SecuritySeverity.critical))).map issueEntry)
            else "")
        ++ (if (r.issues.filter
              (fun issue => decide (issue.severity = SecuritySeverity.high))) ≠ [] then
              "## High Issues\n\n" ++ strConcat ((r.issues.filter
                (fun issue => decide (issue.severity = SecuritySeverity.high))).map issueEntry)
            else "")
        ++ (if (r.issues.filter
              (fun issue => decide (issue.severity = SecuritySeverity.medium))) ≠ [] then
              "## Medium Issues\n\n" ++ strConcat ((r.issues.filter
                (fun issue => decide (issue.severity = SecuritySeverity.medium))).map issueEntry)
            else "")
        ++ (if (r.issues.filter
              (fun issue => decide (issue.severity = SecuritySeverity.low))) ≠ [] then
              "## Low Issues\n\n" ++ strConcat ((r.issues.filter
                (fun issue => decide (issue.severity = SecuritySeverity.low))).map issueEntry)
            else "") := by
  have hlen : ¬(r.issues.length = 0) := by
    simpa [List.length_eq_zero] using hne
  unfold generateReport
  rw [hs]
  simp only [Bool.not_true, Bool.false_eq_true, if_false, if_neg hlen]
  rw [formatIssues_eq, formatIssues_eq, formatIssues_eq, formatIssues_eq]
  simp [List.length_pos]

theorem report_structure_witness :
    sampleResult.success = true ∧ sampleResult.issues ≠ [] ∧
    generateReport sampleResult =
      "# Workflow Security Scan Report for " ++ sampleResult.repository ++ "\n\n"
        ++ "## Summary\n\n"
        ++ ("- Critical: " ++ toString (sampleResult.issues.filter
              (fun issue => decide (issue.severity = SecuritySeverity.critical))).length ++ "\n")
        ++ ("- High: " ++ toString (sampleResult.issues.filter
              (fun issue => decide (issue.severity = SecuritySeverity.high))).length ++ "\n")
        ++ ("- Medium: " ++ toString (sampleResult.issues.filter
              (fun issue => decide (issue.severity = SecuritySeverity.medium))).length ++ "\n")
        ++ ("- Low: " ++ toString (sampleResult.issues.filter
              (fun issue => decide (issue.severity = SecuritySeverity.low))).length ++ "\n\n")
        ++ (if (sampleResult.issues.filter
              (fun issue => decide (issue.severity = SecuritySeverity.critical))) ≠ [] then
              "## Critical Issues\n\n" ++ strConcat ((sampleResult.issues.filter
                (fun issue => decide (issue.severity = SecuritySeverity.critical))).map issueEntry)
            else "")
        ++ (if (sampleResult.issues.filter
              (fun issue => decide (issue.severity = SecuritySeverity.high))) ≠ [] then
              "## High Issues\n\n" ++ strConcat ((sampleResult.issues.filter
                (fun issue => decide (issue.severity = SecuritySeverity.high))).map issueEntry)
            else "")
        ++ (if (sampleResult.issues.filter
              (fun issue => decide (issue.severity = SecuritySeverity.medium))) ≠ [] then
              "## Medium Issues\n\n" ++ strConcat ((sampleResult.issues.filter
                (fun issue => decide (issue.severity = SecuritySeverity.medium))).map issueEntry)
            else "")
        ++ (if (sampleResult.issues.filter
              (fun issue => decide (issue.severity = SecuritySeverity.low))) ≠ [] then
              "## Low Issues\n\n" ++ strConcat ((sampleResult.issues.filter
                (fun issue => decide (issue.severity = SecuritySeverity.low))).map issueEntry)
            else "") :=
  ⟨rfl, by decide, report_structure sampleResult rfl (by decide)⟩

/-! ## Characterization of the `no-plaintext-secrets` pattern (towards C4) -/

/-- An unanchored test succeeds exactly when the anchored matcher
succeeds at the head of some suffix. -/
theorem existsSuffix_iff (p : List Char → Bool) : ∀ l,
    existsSuffix p l = true ↔ ∃ pre suf, l = pre ++ suf ∧ p suf = true := by
  intro l
  induction l with
  | nil =>
    simp only [existsSuffix]
    constructor
    · intro h; exact ⟨[], [], rfl, h⟩
    · rintro ⟨pre, suf, heq, hp⟩
      obtain ⟨rfl, rfl⟩ := List.append_eq_nil.mp heq.symm
      exact hp
  | cons c cs ih =>
    simp only [existsSuffix, Bool.or_eq_true]
    constructor
    · rintro (h | h)
      · exact ⟨[], c :: cs, rfl, h⟩
      · obtain ⟨pre, suf, heq, hp⟩ := ih.mp h
        exact ⟨c :: pre, suf, by rw [heq]; rfl, hp⟩
    · rintro ⟨pre, suf, heq, hp⟩
      cases pre with
      | nil =>
        simp only [List.nil_append] at heq
        subst heq
        exact Or.inl hp
      | cons p pre2 =>
        right
        apply ih.mpr
        simp only [List.cons_append, List.cons.injEq] at heq
        exact ⟨pre2, suf, heq.2, hp⟩

/-- `matchLit` succeeds with remainder `rest` exactly when the input is
a raw prefix normalizing to the literal, followed by `rest`. -/
theorem matchLit_iff (norm : Char → Char) : ∀ (ps l rest : List Char),
    matchLit norm ps l = some rest ↔ ∃ raw, l = raw ++ rest ∧ raw.map norm = ps := by
  intro ps
  induction ps with
  | nil =>
    intro l rest
    simp only [matchLit, Option.some.injEq]
    constructor
    · intro h; exact ⟨[], by simp [h], rfl⟩
    · rintro ⟨raw, heq, hmap⟩
      cases raw with
      | nil => simpa using heq
      | cons a raw2 => simp at hmap
  | cons p ps2 ih =>
    intro l rest
    cases l with
    | nil =>
      simp only [matchLit]
      constructor
      · intro h; simp at h
      · rintro ⟨raw, heq, hmap⟩
        obtain ⟨rfl, rfl⟩ := List.append_eq_nil.mp heq.symm
        simp at hmap
    | cons c cs =>
      by_cases h : norm c = p
      · simp only [matchLit, if_pos h]
        rw [ih cs rest]
        constructor
        · rintro ⟨raw, heq, hmap⟩
          exact ⟨c :: raw, by simp [heq], by simp [hmap, h]⟩
        · rintro ⟨raw, heq, hmap⟩
          cases raw with
          | nil => simp at hmap
          | cons a raw2 =>
            simp only [List.cons_append, List.cons.injEq] at heq
            simp only [List.map_cons, List.cons.injEq] at hmap
            exact ⟨raw2, heq.2, hmap.2⟩
      · simp only [matchLit, if_neg h]
        constructor
        · intro hh; simp at hh
        · rintro ⟨raw, heq, hmap⟩
          cases raw with
          | nil => simp at hmap
          | cons a raw2 =>
            simp only [List.cons_append, List.cons.injEq] at heq
            simp only [List.map_cons, List.cons.injEq] at hmap
            exact absurd (by rw [heq.1]; exact hmap.1) h

/-- `litThen` succeeds exactly when the input decomposes into a raw
prefix normalizing to the literal and a remainder accepted by the
continuation. -/
theorem litThen_iff (norm : Char → Char) (ps : List Char) (k : List Char → Bool) :
    ∀ l, litThen norm ps k l = true ↔
      ∃ raw rest, l = raw ++ rest ∧ raw.map norm = ps ∧ k rest = true := by
  intro l
  unfold litThen
  cases h : matchLit norm ps l with
  | none =>
    constructor
    · intro hh; simp at hh
    · rintro ⟨raw, rest, heq, hmap, hk⟩
      have h2 := (matchLit_iff norm ps l rest).mpr ⟨raw, heq, hmap⟩
      rw [h] at h2
      simp at h2
  | some rest0 =>
    constructor
    · intro hk
      obtain ⟨raw, heq, hmap⟩ := (matchLit_iff norm ps l rest0).mp h
      exact ⟨raw, rest0, heq, hmap, hk⟩
    · rintro ⟨raw, rest, heq, hmap, hk⟩
      have h2 := (matchLit_iff norm ps l rest).mpr ⟨raw, heq, hmap⟩
      rw [h] at h2
      obtain rfl := Option.some.inj h2
      exact hk

/-- The quote characters are not whitespace. -/
theorem isQuote_not_space (c : Char) (h : isQuote c = true) : isJsSpace c = false := by
  simp only [isQuote, Bool.or_eq_true, decide_eq_true_eq] at h
  rcases h with rfl | rfl <;> decide

/-- `r1Body` succeeds exactly when a quote occurs, i.e. on the
decomposition at the first quote. -/
theorem r1Body_iff : ∀ l, r1Body l = true ↔
    ∃ a q2 post, l = a ++ q2 :: post ∧ (∀ c ∈ a, isQuote c = false) ∧ isQuote q2 = true := by
  intro l
  induction l with
  | nil =>
    constructor
    · intro h; simp [r1Body] at h
    · rintro ⟨a, q2, post, heq, _, _⟩
      cases a <;> simp at heq
  | cons c cs ih =>
    by_cases h : isQuote c = true
    · simp only [r1Body, if_pos h]
      constructor
      · intro _; exact ⟨[], c, cs, rfl, by simp, h⟩
      · intro _; trivial
    · have hf : isQuote c = false := by
        revert h; cases isQuote c <;> simp
      simp only [r1Body, if_neg h]
      rw [ih]
      constructor
      · rintro ⟨a, q2, post, heq, ha, hq2⟩
        refine ⟨c :: a, q2, post, by rw [heq]; rfl, ?_, hq2⟩
        intro x hx
        rcases List.mem_cons.mp hx with rfl | hx
        · exact hf
        · exact ha x hx
      · rintro ⟨a, q2, post, heq, ha, hq2⟩
        cases a with
        | nil =>
          simp only [List.nil_append, List.cons.injEq] at heq
          exact absurd (heq.1 ▸ hq2) h
        | cons a0 a2 =>
          simp only [List.cons_append, List.cons.injEq] at heq
          exact ⟨a2, q2, post, heq.2, fun x hx => ha x (List.mem_cons_of_mem a0 hx), hq2⟩

/-- `r1Quoted` succeeds exactly on a nonempty quote-free run followed by
a quote. -/
theorem r1Quoted_iff : ∀ l, r1Quoted l = true ↔
    ∃ mid q2 post, l = mid ++ q2 :: post ∧ mid ≠ [] ∧
      (∀ c ∈ mid, isQuote c = false) ∧ isQuote q2 = true := by
  intro l
  cases l with
  | nil =>
    constructor
    · intro h; simp [r1Quoted] at h
    · rintro ⟨mid, q2, post, heq, _, _, _⟩
      cases mid <;> simp at heq
  | cons c cs =>
    by_cases h : isQuote c = true
    · simp only [r1Quoted, if_pos h]
      constructor
      · intro hh; simp at hh
      · rintro ⟨mid, q2, post, heq, hne, hmid, hq2⟩
        cases mid with
        | nil => exact absurd rfl hne
        | cons m0 mid2 =>
          simp only [List.cons_append, List.cons.injEq] at heq
          have h2 : isQuote c = true := h
          rw [heq.1, hmid m0 (List.mem_cons_self m0 mid2)] at h2
          simp at h2
    · have hf : isQuote c = false := by
        revert h; cases isQuote c <;> simp
      simp only [r1Quoted, if_neg h]
      rw [r1Body_iff]
      constructor
      · rintro ⟨a, q2, post, heq, ha, hq2⟩
        refine ⟨c :: a, q2, post, by rw [heq]; rfl, by simp, ?_, hq2⟩
        intro x hx
        rcases List.mem_cons.mp hx with rfl | hx
        · exact hf
        · exact ha x hx
      · rintro ⟨mid, q2, post, heq, hne, hmid, hq2⟩
        cases mid with
        | nil => exact absurd rfl hne
        | cons m0 mid2 =>
          simp only [List.cons_append, List.cons.injEq] at heq
          exact ⟨mid2, q2, post, heq.2,
            fun x hx => hmid x (List.mem_cons_of_mem m0 hx), hq2⟩

/-- `r1Sp` succeeds exactly on whitespace, an opening quote, a nonempty
quote-free run, and a closing quote. -/
theorem r1Sp_iff : ∀ l, r1Sp l = true ↔
    ∃ ws q mid q2 post, l = ws ++ q :: (mid ++ q2 :: post) ∧
      (∀ c ∈ ws, isJsSpace c = true) ∧ isQuote q = true ∧ mid ≠ [] ∧
      (∀ c ∈ mid, isQuote c = false) ∧ isQuote q2 = true := by
  intro l
  induction l with
  | nil =>
    constructor
    · intro h; simp [r1Sp] at h
    · rintro ⟨ws, q, mid, q2, post, heq, _, _, _, _, _⟩
      cases ws <;> simp at heq
  | cons c cs ih =>
    by_cases hsp : isJsSpace c = true
    · simp only [r1Sp, if_pos hsp]
      rw [ih]
      constructor
      · rintro ⟨ws, q, mid, q2, post, heq, hws, hq, hne, hmid, hq2⟩
        refine ⟨c :: ws, q, mid, q2, post, by rw [heq]; rfl, ?_, hq, hne, hmid, hq2⟩
        intro x hx
        rcases List.mem_cons.mp hx with rfl | hx
        · exact hsp
        · exact hws x hx
      · rintro ⟨ws, q, mid, q2, post, heq, hws, hq, hne, hmid, hq2⟩
        cases ws with
        | nil =>
          simp only [List.nil_append, List.cons.injEq] at heq
          have h2 : isQuote c = true := by rw [heq.1]; exact hq
          rw [isQuote_not_space c h2] at hsp
          simp at hsp
        | cons w ws2 =>
          simp only [List.cons_append, List.cons.injEq] at heq
          exact ⟨ws2, q, mid, q2, post, heq.2,
            fun x hx => hws x (List.mem_cons_of_mem w hx), hq, hne, hmid, hq2⟩
    · by_cases hq : isQuote c = true
      · simp only [r1Sp, if_neg hsp, if_pos hq]
        rw [r1Quoted_iff]
        constructor
        · rintro ⟨mid, q2, post, heq, hne, hmid, hq2⟩
          exact ⟨[], c, mid, q2, post, by rw [heq]; rfl, by simp, hq, hne, hmid, hq2⟩
        · rintro ⟨ws, q0, mid, q2, post, heq, hws, hqq, hne, hmid, hq2⟩
          cases ws with
          | nil =>
            simp only [List.nil_append, List.cons.injEq] at heq
            rw [heq.2]
            exact ⟨mid, q2, post, rfl, hne, hmid, hq2⟩
          | cons w ws2 =>
            simp only [List.cons_append, List.cons.injEq] at heq
            have h2 : isJsSpace c = true := by
              rw [heq.1]; exact hws w (List.mem_cons_self w ws2)
            exact absurd h2 hsp
      · have hrw : r1Sp (c :: cs) = false := by simp [r1Sp, hsp, hq]
        rw [hrw]
        constructor
        · intro hh; simp at hh
        · rintro ⟨ws, q0, mid, q2, post, heq, hws, hqq, hne, hmid, hq2⟩
          cases ws with
          | nil =>
            simp only [List.nil_append, List.cons.injEq] at heq
            have h2 : isQuote c = true := by rw [heq.1]; exact hqq
            exact absurd h2 hq
          | cons w ws2 =>
            simp only [List.cons_append, List.cons.injEq] at heq
            have h2 : isJsSpace c = true := by
              rw [heq.1]; exact hws w (List.mem_cons_self w ws2)
            exact absurd h2 hsp

/-- `r1Colon` succeeds exactly on a literal colon followed by an
`r1Sp`-accepted remainder. -/
theorem r1Colon_iff : ∀ l, r1Colon l = true ↔
    ∃ tail, l = Char.ofNat 58 :: tail ∧ r1Sp tail = true := by
  intro l
  cases l with
  | nil =>
    constructor
    · intro h; simp [r1Colon] at h
    · rintro ⟨tail, heq, _⟩; simp at heq
  | cons c tail =>
    simp only [r1Colon, Bool.and_eq_true, decide_eq_true_eq]
    constructor
    · rintro ⟨rfl, hsp⟩
      exact ⟨tail, rfl, hsp⟩
    · rintro ⟨tail2, heq, hsp⟩
      simp only [List.cons.injEq] at heq
      obtain ⟨rfl, rfl⟩ := heq
      exact ⟨rfl, hsp⟩

/-- `r1At` succeeds exactly when the input starts with one of the secret
keywords (case-insensitively), a colon, and an `r1Sp`-accepted
remainder. -/
theorem r1At_iff : ∀ l, r1At l = true ↔
    ∃ kw, kw ∈ secretKeywords ∧ ∃ kwRaw tail,
      kwRaw.map lowerN = kw.toList ∧ l = kwRaw ++ Char.ofNat 58 :: tail ∧
      r1Sp tail = true := by
  intro l
  unfold r1At
  rw [List.any_eq_true]
  constructor
  · rintro ⟨kw, hkw, hlit⟩
    obtain ⟨raw, rest, heq, hmap, hcol⟩ := (litThen_iff lowerN kw.toList r1Colon l).mp hlit
    obtain ⟨tail, rfl, hsp⟩ := (r1Colon_iff rest).mp hcol
    exact ⟨kw, hkw, raw, tail, hmap, heq, hsp⟩
  · rintro ⟨kw, hkw, kwRaw, tail, hmap, heq, hsp⟩
    refine ⟨kw, hkw, (litThen_iff lowerN kw.toList r1Colon l).mpr ?_⟩
    exact ⟨kwRaw, Char.ofNat 58 :: tail, heq, hmap, (r1Colon_iff _).mpr ⟨tail, rfl, hsp⟩⟩

/-- C4 (amended): the `no-plaintext-secrets` rule fires exactly when the
line contains, case-insensitively, one of `password`, `token`, `key`,
`secret` immediately followed by a colon, optional whitespace, and a
quoted nonempty run of non-quote characters — that is, the key name
must end with one of the keywords (a name that merely contains a
keyword, such as `password_hash`, does not fire the rule). -/
theorem no_plaintext_secrets_characterization (line : List Char) :
    noPlaintextSecretsPat line = true ↔
    ∃ pre kwRaw ws mid post, ∃ q q2 : Char, ∃ kw ∈ secretKeywords,
      kwRaw.map lowerN = kw.toList ∧
      line = pre ++ kwRaw ++ Char.ofNat 58 :: (ws ++ q :: (mid ++ q2 :: post)) ∧
      (∀ c ∈ ws, isJsSpace c = true) ∧
      isQuote q = true ∧ isQuote q2 = true ∧
      mid ≠ [] ∧ (∀ c ∈ mid, isQuote c = false) := by
  unfold noPlaintextSecretsPat
  rw [existsSuffix_iff]
  constructor
  · rintro ⟨pre, suf, heq, hat⟩
    obtain ⟨kw, hkw, kwRaw, tail, hmap, heq2, hsp⟩ := (r1At_iff suf).mp hat
    obtain ⟨ws, q, mid, q2, post, heq3, hws, hq, hne, hmid, hq2⟩ := (r1Sp_iff tail).mp hsp
    refine ⟨pre, kwRaw, ws, mid, post, q, q2, kw, hkw, hmap, ?_, hws, hq, hq2, hne, hmid⟩
    rw [heq, heq2, heq3, List.append_assoc]
  · rintro ⟨pre, kwRaw, ws, mid, post, q, q2, kw, hkw, hmap, heq, hws, hq, hq2, hne, hmid⟩
    refine ⟨pre, kwRaw ++ Char.ofNat 58 :: (ws ++ q :: (mid ++ q2 :: post)), ?_, ?_⟩
    · rw [heq, List.append_assoc]
    · apply (r1At_iff _).mpr
      exact ⟨kw, hkw, kwRaw, ws ++ q :: (mid ++ q2 :: post), hmap, rfl,
        (r1Sp_iff _).mpr ⟨ws, q, mid, q2, post, rfl, hws, hq, hne, hmid, hq2⟩⟩

/-- C4 (counterexample): the key name `password_hash` contains the
keyword `password`, and the line `password_hash: "abc"` has the claimed
form `<name-containing-keyword>: "<literal>"`, yet the scanner produces
no `no-plaintext-secrets` finding for it (no finding at all): the
keyword must be immediately followed by the colon, so only key names
*ending* with a keyword fire the rule. -/
theorem no_plaintext_secrets_contains_counterexample :
    containsList ("password".toList) ("password_hash".toList) = true ∧
    noPlaintextSecretsPat ("password_hash: \"abc\"".toList) = false ∧
    analyzeWorkflow "wf.yml" "password_hash: \"abc\"" = [] :=
  ⟨by decide, by decide, by decide⟩
